import Mathlib

set_option autoImplicit false

/-!
Verification of the `nixpkgs-review` repository (`nixpkgs_review/nix.py`,
`nixpkgs_review/report.py`) against its natural-language specification.

The Python code is shallowly embedded: pure computations become Lean
functions, external effects (running `nix`, the filesystem, captured
stderr of the build tool) become explicit parameters or effect traces,
and Python `dict`s become insertion-ordered association lists.
-/

namespace NixpkgsReview

/-! ### String utilities modelling the Python primitives used by the code -/

/-- Substring containment on character lists (Python's `pat in s`). -/
def containsSubList (pat : List Char) : List Char → Bool
  | [] => pat.isEmpty
  | c :: cs => pat.isPrefixOf (c :: cs) || containsSubList pat cs

/-- Python's `pat in s` on strings. -/
def strContains (s pat : String) : Bool :=
  containsSubList pat.data s.data

/-- Number of positions of `s` at which `pat` occurs (used to count
occurrences of markers such as `"<li>"` in rendered reports). -/
def countSubList (pat : List Char) : List Char → Nat
  | [] => if pat.isEmpty then 1 else 0
  | c :: cs => (if pat.isPrefixOf (c :: cs) then 1 else 0) + countSubList pat cs

/-- Occurrence count of `pat` in the string `s`. -/
def countSubStr (s pat : String) : Nat :=
  countSubList pat.data s.data

/-- Python's `str.startswith` (structural, over the character lists). -/
def pyStartsWith (s pre : String) : Bool :=
  pre.data.isPrefixOf s.data

/-- Python's `str.endswith` (structural, over the character lists). -/
def pyEndsWith (s post : String) : Bool :=
  post.data.reverse.isPrefixOf s.data.reverse

/-- Worker for `pySplit`: `cur` holds the current token's characters in
reverse. -/
def pySplitGo : List Char → List Char → List String
  | [], cur => if cur = [] then [] else [String.mk cur.reverse]
  | c :: cs, cur =>
    if c.isWhitespace then
      if cur = [] then pySplitGo cs []
      else String.mk cur.reverse :: pySplitGo cs []
    else pySplitGo cs (c :: cur)

/-- Python's `str.split()`: the maximal whitespace-free runs of the string,
in order (split on whitespace runs, dropping empties). -/
def pySplit (s : String) : List String :=
  pySplitGo s.data []

/-- Python's `str.lstrip(cs)`: drop the leading characters contained in `cs`. -/
def lstripChars (cs : List Char) (s : String) : String :=
  ⟨s.data.dropWhile (fun c => cs.contains c)⟩

/-- Python's `str.rstrip(cs)`: drop the trailing characters contained in `cs`. -/
def rstripChars (cs : List Char) (s : String) : String :=
  ⟨(s.data.reverse.dropWhile (fun c => cs.contains c)).reverse⟩

/-- Python's `str.strip(cs)`. -/
def stripChars (cs : List Char) (s : String) : String :=
  rstripChars cs (lstripChars cs s)

/-! ### Insertion-ordered dictionaries (Python `dict`) as association lists -/

/-- `d.get(key, None)`: value of the first (unique) entry with the given key. -/
def dictGet {α : Type} : List (String × α) → String → Option α
  | [], _ => none
  | (k, v) :: rest, key => if k = key then some v else dictGet rest key

/-- Python `d[k] = v`: replace the value in place if the key is present
(keeping its position, as Python dicts do), otherwise append the entry. -/
def dictUpsert {α : Type} : List (String × α) → String × α → List (String × α)
  | [], kv => [kv]
  | (k, v) :: rest, kv =>
    if k = kv.1 then (k, kv.2) :: rest else (k, v) :: dictUpsert rest kv

/-- Python `d.update(new)`: upsert every entry of `new` in order. -/
def dictUpdate {α : Type} (d : List (String × α)) (new : List (String × α)) :
    List (String × α) :=
  new.foldl dictUpsert d

/-! ### The `Attr` data model (`nix.py`, `@dataclass class Attr`) -/

/-- The fields of the Python `Attr` dataclass (`nix.py`).  The private
cache `_path_verified` is not a field here: the external `nix store verify`
call it caches is modelled by a `verify : String → Bool` oracle passed to
`was_build`. -/
structure Attr where
  name : String
  «exists» : Bool
  broken : Bool
  blacklisted : Bool
  skipped : Bool
  path : Option String
  drv_path : Option String
  position : Option String
  log_url : Option String := none
  aliases : List String := []
  timed_out : Bool := false
  build_err_msg : Option String := none
deriving Repr, DecidableEq

/-- `Attr.was_build` (`nix.py`): `False` when there is no output path or the
attribute was skipped; otherwise the result of the external
`nix store verify` on the output path, supplied by the oracle `verify`. -/
def Attr.was_build (verify : String → Bool) (a : Attr) : Bool :=
  match a.path with
  | none => false
  | some p => if a.skipped then false else verify p

/-- `Attr.is_test` (`nix.py`). -/
def Attr.is_test (a : Attr) : Bool :=
  pyStartsWith a.name "nixosTests"

/-! ### Evaluation (`nix.py`, `nix_eval` and `_nix_eval_filter`) -/

/-- The per-attribute JSON object produced by the external evaluator
(the fields read by `_nix_eval_filter`). -/
structure Props where
  «exists» : Bool
  broken : Bool
  path : Option String
  drvPath : Option String
  position : Option String
deriving Repr, DecidableEq

/-- The ofborg blacklist hard-coded in `_nix_eval_filter` (`nix.py`). -/
def blacklist : List String :=
  [ "appimage-run-tests",
    "darwin.builder",
    "nixos-install-tools",
    "tests.nixos-functions.nixos-test",
    "tests.nixos-functions.nixosTest-test",
    "tests.php.overrideAttrs-preserves-enabled-extensions",
    "tests.php.withExtensions-enables-previously-disabled-extensions",
    "tests.trivial",
    "tests.writers" ]

/-- The `Attr(...)` constructed for one entry of the evaluator's JSON
(`_nix_eval_filter`, `nix.py`). -/
def mkAttr (name : String) (props : Props) : Attr :=
  { name := name
    «exists» := props.exists
    broken := props.broken
    blacklisted := blacklist.contains name
    skipped := false
    path := props.path
    drv_path := props.drvPath
    position := props.position }

/-- One iteration of the loop in `_nix_eval_filter`: the state is the pair
`(attr_by_path, broken)` (an insertion-ordered dict keyed by output path,
and the list of attrs without an output path). -/
def evalFilterStep (st : List (String × Attr) × List Attr) (entry : String × Props) :
    List (String × Attr) × List Attr :=
  let attr := mkAttr entry.1 entry.2
  match attr.path with
  | none => (st.1, st.2 ++ [attr])
  | some p =>
    match dictGet st.1 p with
    | none => (dictUpsert st.1 (p, attr), st.2)
    | some other =>
      if other.name.length > attr.name.length then
        (dictUpsert st.1 (p, { attr with aliases := attr.aliases ++ [other.name] }), st.2)
      else
        (dictUpsert st.1 (p, { other with aliases := other.aliases ++ [attr.name] }), st.2)

/-- `_nix_eval_filter` (`nix.py`): fold the evaluator's JSON items (given in
dict iteration order) through `evalFilterStep`, then return the dict values
followed by the pathless attrs. -/
def _nix_eval_filter (json : List (String × Props)) : List Attr :=
  let st := json.foldl evalFilterStep ([], [])
  st.1.map (fun kv => kv.2) ++ st.2

/-- Modelled from the spec: the external evaluator invoked by `nix_eval._eval`
runs `nix/evalAttrs.nix` (not under `src/`), which per the spec returns one
JSON object per requested identifier, each evaluated independently of the
rest of the chunk.  `oracle` gives the per-identifier result; `_eval` maps it
over the requested chunk. -/
def _eval (oracle : String → Props) (chunk : List String) : List (String × Props) :=
  chunk.map (fun n => (n, oracle n))

/-- Stable insertion used to model Python's `sorted` on identifier lists. -/
def insertSorted (x : String) : List String → List String
  | [] => [x]
  | y :: ys => if x ≤ y then x :: y :: ys else y :: insertSorted x ys

/-- Python's `sorted` on a list of identifiers. -/
def pySorted (l : List String) : List String :=
  l.foldr insertSorted []

/-- `MAX_ATTRS_AT_ONCE` (`nix_eval`, `nix.py`). -/
def MAX_ATTRS_AT_ONCE : Nat := 4096

/-- Fuel-driven worker for `chunksOf4096` (structural recursion on the fuel,
so that it reduces inside the kernel; `fuel ≥ l.length` makes the fuel
irrelevant because every round drops at least one element). -/
def chunksGo {α : Type} : Nat → List α → List (List α)
  | 0, _ => []
  | _, [] => []
  | fuel + 1, x :: xs =>
    ((x :: xs).take MAX_ATTRS_AT_ONCE) :: chunksGo fuel ((x :: xs).drop MAX_ATTRS_AT_ONCE)

/-- The chunks `attrlist[i : i + MAX_ATTRS_AT_ONCE]` taken by the loop in
`nix_eval` (`nix.py`). -/
def chunksOf4096 {α : Type} (l : List α) : List (List α) :=
  chunksGo l.length l

/-- The merged `eval_data` of `nix_eval` (`nix.py`): evaluate each chunk and
`dict.update` the results together. -/
def eval_data (oracle : String → Props) (attrlist : List String) :
    List (String × Props) :=
  (chunksOf4096 attrlist).foldl (fun m c => dictUpdate m (_eval oracle c)) []

/-- `nix_eval` (`nix.py`): sort the identifier set, evaluate it in chunks of
at most 4096, merge, and filter.  The input list stands for the Python `set`
(hence duplicate-free where theorems need it). -/
def nix_eval (oracle : String → Props) (attrs : List String) : List Attr :=
  _nix_eval_filter (eval_data oracle (pySorted attrs))

/-- Evaluating the whole sorted identifier set in one single chunk. -/
def nix_eval_single_chunk (oracle : String → Props) (attrs : List String) : List Attr :=
  _nix_eval_filter (_eval oracle (pySorted attrs))

/-! ### `nix_eval._eval` error handling (`nix.py`) -/

/-- `AllowedFeatures` flags read by `nix.py` (`allow.py` is not under `src/`;
only the two boolean fields the embedded code reads are modelled). -/
structure AllowedFeatures where
  url_literals : Bool
  ifd : Bool
deriving Repr, DecidableEq

/-- `NixpkgsReviewError` (`errors.py`): an exception carrying its message. -/
structure NixpkgsReviewError where
  message : String
deriving Repr, DecidableEq

/-- The `cmd` list built by `nix_eval._eval` (`nix.py`). -/
def evalCmd (allow : AllowedFeatures) (system nix_path eval_script tmpName : String) :
    List String :=
  [ "nix",
    "--extra-experimental-features",
    (if allow.url_literals then "nix-command" else "nix-command no-url-literals"),
    "--system", system,
    "eval",
    "--nix-path", nix_path,
    "--json",
    "--impure",
    (if allow.ifd then "--allow-import-from-derivation"
     else "--no-allow-import-from-derivation"),
    "--expr",
    "(import " ++ eval_script ++ " \x7b attr-json = " ++ tmpName ++ "; \x7d)" ]

/-- Outcome of running the external evaluator once: its exit code and its
parsed JSON output (JSON decoding itself is not modelled). -/
structure EvalExec where
  returncode : Int
  stdout : List (String × Props)

/-- The error/cleanup behaviour of `nix_eval._eval` (`nix.py`): on a non-zero
exit code raise `NixpkgsReviewError` (message built from the command and the
temporary file name) and keep the temporary file; on success return the
parsed output and delete the temporary file.  The second component records
whether the temporary input file was deleted. -/
def evalOnce (cmd : List String) (tmpName : String) (exec : EvalExec) :
    Except NixpkgsReviewError (List (String × Props)) × Bool :=
  if exec.returncode ≠ 0 then
    (Except.error
      ⟨String.intercalate " " cmd ++ " failed to run, " ++ tmpName
        ++ " was stored inspection"⟩,
     false)
  else
    (Except.ok exec.stdout, true)

/-! ### Build stderr parsing (`nix.py`, `nix_build` lines 432-473) -/

/-- The filter removing boring `copying path '...' ...` lines from the
captured stderr (`nix_build`, `nix.py`).  The captured stderr is modelled as
its list of lines. -/
def stripBoring (lines : List String) : List String :=
  lines.filter (fun line =>
    !(pyStartsWith line "copying path \x27" && pyEndsWith line "..."))

/-- `next(item for item in line.split() if nix_store in item)` (`nix.py`),
as an `Option` (Python raises `StopIteration` when no item matches). -/
def findStoreItem (nix_store line : String) : Option String :=
  (pySplit line).find? (fun item => strContains item nix_store)

/-- One iteration of the stderr-scanning loop of `nix_build` (`nix.py`):
the state is `(has_failed_dependencies, has_timeout)`.  `none` models the
`StopIteration` escape when a matching line has no store item. -/
def scanLine (nix_store : String) (acc : List String × List (String × String))
    (line : String) : Option (List String × List (String × String)) :=
  let step1 : Option (List String × List (String × String)) :=
    if strContains line "dependencies couldn\x27t be built" then
      match findStoreItem nix_store line with
      | none => none
      | some item =>
        some (acc.1 ++ [rstripChars [':', '\x27'] (lstripChars ['\x27'] item)], acc.2)
    else some acc
  match step1 with
  | none => none
  | some acc1 =>
    if strContains line "timed out after" then
      match findStoreItem nix_store line with
      | none => none
      | some item =>
        some (acc1.1, dictUpsert acc1.2 (stripChars ['\x27'] item, line))
    else some acc1

/-- The whole stderr-scanning loop of `nix_build` (`nix.py`). -/
def scanLines (nix_store : String) (lines : List String) :
    Option (List String × List (String × String)) :=
  lines.foldlM (scanLine nix_store) ([], [])

/-- Mutation of the object `drv_path_to_attr[d]`: since the dict
comprehension `{a.drv_path: a for a in attrs}` lets the last attr with a
given `drv_path` win, updating it updates the last matching element of the
list (and does nothing when no attr has that `drv_path`). -/
def updateLast (d : String) (f : Attr → Attr) : List Attr → List Attr
  | [] => []
  | a :: rest =>
    if rest.any (fun b => b.drv_path == some d) then a :: updateLast d f rest
    else if a.drv_path == some d then f a :: rest
    else a :: updateLast d f rest

/-- The `has_timeout` loop of `nix_build` (`nix.py`): mark each timed-out
derivation and store the timeout line as its build error message. -/
def applyTimeouts (touts : List (String × String)) (attrs : List Attr) : List Attr :=
  touts.foldl
    (fun acc dl =>
      updateLast dl.1
        (fun a => { a with build_err_msg := some dl.2, timed_out := true }) acc)
    attrs

/-- The `has_failed_dependencies` loop of `nix_build` (`nix.py`): store the
full (noise-stripped) stderr as the build error message, and mark the attr
timed-out when any timeout occurred during the run. -/
def applyDeps (deps : List String) (anyTimeout : Bool) (stderrAll : String)
    (attrs : List Attr) : List Attr :=
  deps.foldl
    (fun acc d =>
      updateLast d
        (fun a =>
          { a with build_err_msg := some stderrAll,
                   timed_out := if anyTimeout then true else a.timed_out }) acc)
    attrs

/-- The stderr post-processing of `nix_build` (`nix.py`, lines 432-473):
strip boring lines, scan for dependency failures and timeouts, then apply
first the timeout updates and then the dependency-failure updates. -/
def parse_build_stderr (nix_store : String) (lines : List String)
    (attrs : List Attr) : Option (List Attr) :=
  let stripped := stripBoring lines
  match scanLines nix_store stripped with
  | none => none
  | some (deps, touts) =>
    some (applyDeps deps (!touts.isEmpty) (String.intercalate "\n" stripped)
      (applyTimeouts touts attrs))

/-- Per-record view of the `has_timeout` loop: the net effect of
`applyTimeouts` on one attr (proven equal to `applyTimeouts` for
duplicate-free `drv_path`s). -/
def toutsPointwise (touts : List (String × String)) (a : Attr) : Attr :=
  touts.foldl
    (fun acc dl =>
      if acc.drv_path == some dl.1
      then { acc with build_err_msg := some dl.2, timed_out := true } else acc) a

/-- Per-record view of the `has_failed_dependencies` loop: the net effect of
`applyDeps` on one attr (proven equal to `applyDeps` for duplicate-free
`drv_path`s). -/
def depsPointwise (deps : List String) (anyTimeout : Bool) (stderrAll : String)
    (a : Attr) : Attr :=
  deps.foldl
    (fun acc d =>
      if acc.drv_path == some d
      then { acc with build_err_msg := some stderrAll,
                      timed_out := if anyTimeout then true else acc.timed_out }
      else acc) a

/-! ### `nix_build` (`nix.py`) as an effect-trace function -/

/-- External actions performed by `nix_build`: informational messages
(`utils.info`, not under `src/`, modelled from the spec as emitting a
message), evaluator invocations (one per chunk), and invocations of the
external build tool via `utils.sh` (modelled from the spec as one external
process per call). -/
inductive BuildEffect where
  | infoMsg (msg : String)
  | runEval (chunk : List String)
  | runBuild (command : List String)
deriving Repr, DecidableEq

/-- Is this effect an invocation of the external build tool? -/
def BuildEffect.isRunBuild : BuildEffect → Bool
  | .runBuild _ => true
  | _ => false

/-- Is this effect an invocation of the external evaluator? -/
def BuildEffect.isRunEval : BuildEffect → Bool
  | .runEval _ => true
  | _ => false

/-- `build_shell_file_args` (`nix.py`): the argument list it returns.  The
`attrs` parameter is written to the `attrs.nix` file referenced by the last
argument (a filesystem effect that does not appear in the returned list). -/
def build_shell_file_args (cache_dir : String) (_attrs : List String)
    (system nixpkgs_config : String) : List String :=
  [ "--argstr", "system", system,
    "--argstr", "nixpkgs-path", cache_dir ++ "/nixpkgs/",
    "--argstr", "nixpkgs-config-path", nixpkgs_config,
    "--argstr", "attrs-path", cache_dir ++ "/attrs.nix" ]

/-- `REVIEW_SHELL` (`nix.py`), as a function of the package root. -/
def REVIEW_SHELL (root : String) : String :=
  root ++ "/nix/review-shell.nix"

/-- The `command` list built by `nix_build` (`nix.py`, lines 402-428).
`extraArgs` models `shlex.split(args)` and `isLinux` models
`platform == "linux"`. -/
def nix_build_command (build_graph root nix_path : String) (allow : AllowedFeatures)
    (isLinux : Bool) (cache_dir : String) (filtered : List String)
    (system nixpkgs_config : String) (extraArgs : List String) : List String :=
  [ build_graph, "build",
    "--file", REVIEW_SHELL root,
    "--nix-path", nix_path,
    "--extra-experimental-features",
    (if allow.url_literals then "nix-command" else "nix-command no-url-literals"),
    "--no-link",
    "--keep-going",
    (if allow.ifd then "--allow-import-from-derivation"
     else "--no-allow-import-from-derivation") ]
  ++ (if isLinux then ["--option", "build-use-sandbox", "relaxed"] else [])
  ++ build_shell_file_args cache_dir filtered system nixpkgs_config
  ++ extraArgs

/-- Result of `nix_build`: the returned attr list plus the trace of external
actions it performed. -/
structure BuildResult where
  attrs : List Attr
  effects : List BuildEffect
deriving Repr, DecidableEq

/-- `nix_build` (`nix.py`): the empty set short-circuits with an
informational message; otherwise evaluate (one evaluator invocation per
chunk), apply the pre-build filter, and unless everything was filtered out
run the external build tool — the source calls `sh(command)` on line 430 and
then `sh(command, stderr=subprocess.PIPE)` again on line 431, so the trace
records two build invocations; the captured stderr of the second invocation
(`buildStderrLines`) is then parsed.  `pre_filter` models the
`NIXPKGS_REVIEW_PRE_BUILD_FILTER` chain (the identity when unset). -/
def nix_build (oracle : String → Props) (pre_filter : List Attr → List Attr)
    (buildStderrLines : List String) (nix_store : String)
    (build_graph root nix_path : String) (allow : AllowedFeatures) (isLinux : Bool)
    (cache_dir system nixpkgs_config : String) (extraArgs : List String)
    (attr_names : List String) : Option BuildResult :=
  if attr_names = [] then
    some ⟨[], [.infoMsg "Nothing to be built."]⟩
  else
    let attrlist := pySorted attr_names
    let evalEffects : List BuildEffect := (chunksOf4096 attrlist).map .runEval
    let attrs := pre_filter (nix_eval oracle attr_names)
    let filtered :=
      (attrs.filter (fun a => !(a.broken || a.blacklisted || a.skipped))).map
        (fun a => a.name)
    if filtered = [] then some ⟨attrs, evalEffects⟩
    else
      let command := nix_build_command build_graph root nix_path allow isLinux
        cache_dir filtered system nixpkgs_config extraArgs
      match parse_build_stderr nix_store buildStderrLines attrs with
      | none => none
      | some attrs2 =>
        some ⟨attrs2, evalEffects ++ [.runBuild command, .runBuild command]⟩

/-! ### Report classification (`report.py`, `SystemReport`) -/

/-- The six buckets of `SystemReport` (`report.py`). -/
structure SystemReport where
  broken : List Attr := []
  failed : List Attr := []
  non_existent : List Attr := []
  blacklisted : List Attr := []
  tests : List Attr := []
  built : List Attr := []
deriving Repr, DecidableEq

/-- The bucket the `if`/`elif` chain of `SystemReport.__init__` (`report.py`)
selects for one attr (first match wins). -/
inductive Bucket where
  | broken | blacklisted | nonExistent | tests | failed | built
deriving Repr, DecidableEq

/-- The classification decision of `SystemReport.__init__` (`report.py`) for
a single attr, in the source's test order. -/
def bucketOf (verify : String → Bool) (a : Attr) : Bucket :=
  if a.broken then .broken
  else if a.blacklisted then .blacklisted
  else if !a.exists then .nonExistent
  else if pyStartsWith a.name "nixosTests." then .tests
  else if !(a.was_build verify) then .failed
  else .built

/-- One iteration of the loop in `SystemReport.__init__` (`report.py`):
append the attr to the bucket its `if`/`elif` chain selects. -/
def systemReportStep (verify : String → Bool) (r : SystemReport) (a : Attr) :
    SystemReport :=
  if a.broken then { r with broken := r.broken ++ [a] }
  else if a.blacklisted then { r with blacklisted := r.blacklisted ++ [a] }
  else if !a.exists then { r with non_existent := r.non_existent ++ [a] }
  else if pyStartsWith a.name "nixosTests." then { r with tests := r.tests ++ [a] }
  else if !(a.was_build verify) then { r with failed := r.failed ++ [a] }
  else { r with built := r.built ++ [a] }

/-- `SystemReport.__init__` (`report.py`): classify the attrs in evaluation
order into the six buckets.  `verify` is the external `nix store verify`
oracle consulted by `Attr.was_build`. -/
def SystemReport.ofAttrs (verify : String → Bool) (attrs : List Attr) : SystemReport :=
  attrs.foldl (systemReportStep verify) {}

/-- The eight-bucket classification asserted by the spec. -/
structure SpecEightBucketReport where
  broken : List Attr := []
  blacklisted : List Attr := []
  skipped : List Attr := []
  timedOut : List Attr := []
  nonExistent : List Attr := []
  tests : List Attr := []
  failed : List Attr := []
  built : List Attr := []
deriving Repr, DecidableEq

/-- Modelled from the spec (not from any source function; stated only to be
compared with `SystemReport.ofAttrs`): the spec's claimed classification with
the first-match precedence broken, blacklisted, skipped, timed-out,
non-existent, is-a-test, not-verified-as-built (failed), built. -/
def specEightBucketClassify (verify : String → Bool) (attrs : List Attr) :
    SpecEightBucketReport :=
  attrs.foldl
    (fun r a =>
      if a.broken then { r with broken := r.broken ++ [a] }
      else if a.blacklisted then { r with blacklisted := r.blacklisted ++ [a] }
      else if a.skipped then { r with skipped := r.skipped ++ [a] }
      else if a.timed_out then { r with timedOut := r.timedOut ++ [a] }
      else if !a.exists then { r with nonExistent := r.nonExistent ++ [a] }
      else if pyStartsWith a.name "nixosTests." then { r with tests := r.tests ++ [a] }
      else if !(a.was_build verify) then { r with failed := r.failed ++ [a] }
      else { r with built := r.built ++ [a] })
    {}

/-! ### Markdown rendering (`report.py`, `html_pkgs_section` and `Report`) -/

/-- The string appended for one rendered package item inside the loop of
`html_pkgs_section` (`report.py`). -/
def lineItem (pkg : Attr) : String :=
  (match pkg.log_url with
   | some url => "    <li><a href=\"" ++ url ++ "\">" ++ pkg.name ++ "</a>"
   | none => "    <li>" ++ pkg.name)
  ++ (if pkg.aliases.length > 0
      then " (" ++ String.intercalate " ," pkg.aliases ++ ")" else "")
  ++ "</li>\n"

/-- The loop of `html_pkgs_section` (`report.py`): render items with their
running index `i`; once `show_ > 0 and i >= show_`, emit the ellipsis item
and stop. -/
def htmlItems (show_ : Int) : Nat → List Attr → String
  | _, [] => ""
  | i, pkg :: rest =>
    if show_ > 0 && (i : Int) ≥ show_ then "    <li>...</li>\n"
    else lineItem pkg ++ htmlItems show_ (i + 1) rest

/-- `html_pkgs_section` (`report.py`).  `show_` is the display cap (`show`
in the source, default `-1`). -/
def html_pkgs_section (emoji : String) (packages : List Attr) (msg : String)
    (what : String := "package") (show_ : Int := -1) : String :=
  if packages.length = 0 then ""
  else
    let plural := if packages.length > 1 then "s" else ""
    "<details>\n"
      ++ "  <summary>" ++ emoji ++ " " ++ toString packages.length ++ " " ++ what
      ++ plural ++ " " ++ msg ++ ":</summary>\n  <ul>\n"
      ++ htmlItems show_ 0 packages
      ++ "  </ul>\n</details>\n"

/-- The `Report` object (`report.py`): the fields used by `markdown` and
`succeeded`.  `system_reports` is the insertion-ordered dict of per-platform
`SystemReport`s (its `order_reports` sorting, from `utils.py` which is not
under `src/`, only permutes the sections deterministically and is applied by
the caller building this record). -/
structure Report where
  show_header : Bool
  extra_nixpkgs_config : Option String
  checkout : String
  system_reports : List (String × SystemReport)

/-- `Report.succeeded` (`report.py`): true iff every platform's `failed`
bucket is empty. -/
def Report.succeeded (r : Report) : Bool :=
  r.system_reports.all (fun p => p.2.failed.length == 0)

/-- The per-platform section of `Report.markdown` (`report.py`): the six
`html_pkgs_section` calls, none of which passes a display cap. -/
def markdownSection (p : String × SystemReport) : String :=
  "\n---\n"
  ++ "### `" ++ p.1 ++ "`\n"
  ++ html_pkgs_section ":fast_forward:" p.2.broken "marked as broken and skipped"
  ++ html_pkgs_section ":fast_forward:" p.2.non_existent
      "present in ofBorgs evaluation, but not found in the checkout"
  ++ html_pkgs_section ":fast_forward:" p.2.blacklisted "blacklisted"
  ++ html_pkgs_section ":x:" p.2.failed "failed to build"
  ++ html_pkgs_section ":white_check_mark:" p.2.tests "built" "test"
  ++ html_pkgs_section ":white_check_mark:" p.2.built "built"

/-- `Report.markdown` (`report.py`). -/
def Report.markdown (r : Report) (pr : Option Nat) : String :=
  let header :=
    if r.show_header then
      let cmd := "nixpkgs-review"
      let cmd := match pr with
        | some n => cmd ++ " pr " ++ toString n
        | none => cmd
      let cmd := match r.extra_nixpkgs_config with
        | some cfg => cmd ++ " --extra-nixpkgs-config \x27" ++ cfg ++ "\x27"
        | none => cmd
      let cmd := if r.checkout ≠ "merge" then cmd ++ " --checkout " ++ r.checkout
        else cmd
      "## `nixpkgs-review` result\n\n"
        ++ "Generated using [`nixpkgs-review`](https://github.com/Mic92/nixpkgs-review).\n\n"
        ++ "Command: `" ++ cmd ++ "`\n"
    else ""
  header ++ String.join (r.system_reports.map markdownSection)

/-! ### `write_result_links` (`report.py`) -/

/-- One symlink placed by `write_result_links`: the directory it goes in
(`"results"` or `"failed_results"`), the link name, and its target. -/
structure SymlinkAction where
  dir : String
  name : String
  target : String
deriving Repr, DecidableEq

/-- The filesystem state built by `write_result_links`: the symlinks placed
(in order; placing a link named like an existing one replaces it) and the
`LazyDirectory.created` flags of the two directories. -/
structure LinkState where
  actions : List SymlinkAction := []
  results_created : Bool := false
  failed_created : Bool := false
deriving Repr, DecidableEq

/-- The body of the inner loop of `write_result_links` (`report.py`) for one
attr of one platform.  `verify` is the `nix store verify` oracle of
`Attr.was_build` and `pathExists` models `attr.path.exists()`. -/
def writeLinksStep (verify pathExists : String → Bool) (system : String)
    (st : LinkState) (attr : Attr) : LinkState :=
  if attr.blacklisted || attr.drv_path == none then st
  else
    let attr_name := attr.name ++ "-" ++ system
    match attr.path with
    | none => st
    | some p =>
      if pathExists p then
        if attr.was_build verify then
          { st with actions := st.actions ++ [⟨"results", attr_name, p⟩],
                    results_created := true }
        else
          { st with actions := st.actions ++ [⟨"failed_results", attr_name, p⟩],
                    failed_created := true }
      else st

/-- `write_result_links` (`report.py`): iterate over the platforms and their
attrs, lazily creating the two directories on first use. -/
def write_result_links (verify pathExists : String → Bool)
    (attrs_per_system : List (String × List Attr)) : LinkState :=
  attrs_per_system.foldl
    (fun st p => p.2.foldl (writeLinksStep verify pathExists p.1) st) {}

/-- The symlink `write_result_links` places for one attr of one platform,
if any (closed-form characterization of `writeLinksStep`). -/
def actionOf (verify pathExists : String → Bool) (system : String) (attr : Attr) :
    Option SymlinkAction :=
  if attr.blacklisted || attr.drv_path == none then none
  else
    match attr.path with
    | none => none
    | some p =>
      if pathExists p then
        some ⟨if attr.was_build verify then "results" else "failed_results",
              attr.name ++ "-" ++ system, p⟩
      else none

/-! ### Concrete fixtures used by witnesses and counterexamples -/

/-- A plain, successfully evaluated, non-blacklisted attr. -/
def attrFx : Attr :=
  { name := "x"
    «exists» := true
    broken := false
    blacklisted := false
    skipped := false
    path := some "/nix/store/x-out"
    drv_path := some "/nix/store/x.drv"
    position := none }

/-- An attr that was skipped (but is otherwise buildable). -/
def attrSkippedFx : Attr := { attrFx with name := "skippedpkg", skipped := true }

/-- Evaluator JSON for a present, non-broken attr with output path `p`. -/
def propsFx : Props :=
  { «exists» := true
    broken := false
    path := some "/nix/store/p"
    drvPath := some "/nix/store/p.drv"
    position := none }

/-- A per-identifier evaluator oracle giving every identifier its own
output and derivation path. -/
def oracleFx : String → Props := fun n =>
  { «exists» := true
    broken := false
    path := some ("/nix/store/out-" ++ n)
    drvPath := some ("/nix/store/" ++ n ++ ".drv")
    position := none }

/-- A second fixture attr with its own derivation. -/
def attrYFx : Attr :=
  { attrFx with
      name := "y", path := some "/nix/store/y-out", drv_path := some "/nix/store/y.drv" }

/-- A captured stderr line timing out `x.drv`. -/
def lineTimeoutFx : String := "building \x27/nix/store/x.drv\x27 timed out after 1s"

/-- A captured stderr line reporting a dependency failure for `y.drv`. -/
def lineDepYFx : String :=
  "cannot build derivation \x27/nix/store/y.drv\x27: 1 dependencies couldn\x27t be built"

/-- A captured stderr line reporting a dependency failure for `x.drv` itself. -/
def lineDepXFx : String :=
  "cannot build derivation \x27/nix/store/x.drv\x27: 1 dependencies couldn\x27t be built"

/-- Fifteen failed attrs (no output path, so never verified as built). -/
def attrsFx15 : List Attr :=
  ["a", "b", "c", "d", "e", "f", "g", "h", "i", "j", "k", "l", "m", "n", "o"].map
    (fun n => { attrFx with name := n, path := none })

/-- A report whose single platform has the fifteen failed attrs. -/
def reportFx15 : Report :=
  { show_header := false
    extra_nixpkgs_config := none
    checkout := "merge"
    system_reports := [("x86_64-linux", SystemReport.ofAttrs (fun _ => true) attrsFx15)] }

/-- A non-blacklisted, successfully evaluated attr without an output path. -/
def attrNoOutPathFx : Attr := { attrFx with name := "nopath", path := none }

/-! ## Theorems -/

/-- `systemReportStep` appends the attr to the bucket selected by `bucketOf`. -/
theorem systemReportStep_eq_bucket (verify : String → Bool) (r : SystemReport) (a : Attr) :
    systemReportStep verify r a =
      match bucketOf verify a with
      | .broken => { r with broken := r.broken ++ [a] }
      | .blacklisted => { r with blacklisted := r.blacklisted ++ [a] }
      | .nonExistent => { r with non_existent := r.non_existent ++ [a] }
      | .tests => { r with tests := r.tests ++ [a] }
      | .failed => { r with failed := r.failed ++ [a] }
      | .built => { r with built := r.built ++ [a] } := by
  unfold systemReportStep bucketOf
  split_ifs <;> rfl

/-- Closed form of the classification loop of `SystemReport.__init__`. -/
theorem foldl_systemReportStep (verify : String → Bool) (l : List Attr) (r : SystemReport) :
    l.foldl (systemReportStep verify) r =
      { broken := r.broken ++ l.filter (fun a => bucketOf verify a == .broken)
        blacklisted := r.blacklisted ++ l.filter (fun a => bucketOf verify a == .blacklisted)
        non_existent := r.non_existent ++ l.filter (fun a => bucketOf verify a == .nonExistent)
        tests := r.tests ++ l.filter (fun a => bucketOf verify a == .tests)
        failed := r.failed ++ l.filter (fun a => bucketOf verify a == .failed)
        built := r.built ++ l.filter (fun a => bucketOf verify a == .built) } := by
  induction l generalizing r with
  | nil => simp
  | cons a l ih =>
    rw [List.foldl_cons, systemReportStep_eq_bucket]
    rcases hb : bucketOf verify a <;>
      simp [ih, List.filter_cons, hb]

/-- C1 (amended): classification into a `SystemReport` places each record in
exactly one of the SIX buckets broken, blacklisted, non-existent, tests,
failed, built, choosing the bucket by the fixed first-match precedence
broken → blacklisted → non-existent → is-a-test → not-verified-as-built
(failed) → built, with each bucket preserving the input evaluation order:
every bucket equals the ordered sublist of records whose first matching test
is that bucket's (`bucketOf` is the source's `if`/`elif` chain, a total
function, so each record lands in exactly one bucket).  There are no
skipped or timed-out buckets. -/
theorem systemReport_six_bucket_partition (verify : String → Bool) (attrs : List Attr) :
    SystemReport.ofAttrs verify attrs =
      { broken := attrs.filter (fun a => bucketOf verify a == .broken)
        blacklisted := attrs.filter (fun a => bucketOf verify a == .blacklisted)
        non_existent := attrs.filter (fun a => bucketOf verify a == .nonExistent)
        tests := attrs.filter (fun a => bucketOf verify a == .tests)
        failed := attrs.filter (fun a => bucketOf verify a == .failed)
        built := attrs.filter (fun a => bucketOf verify a == .built) } := by
  unfold SystemReport.ofAttrs
  rw [foldl_systemReportStep]
  rfl

/-- C1 counterexample: the claim's eight-bucket classification (with skipped
and timed-out buckets preceding non-existent) does not match the code.  A
skipped record is placed by `SystemReport.__init__` into the `failed`
bucket, while the claimed precedence puts it into a `skipped` bucket (which
`SystemReport` does not even have). -/
theorem systemReport_eight_bucket_counterexample :
    (SystemReport.ofAttrs (fun _ => true) [attrSkippedFx]).failed = [attrSkippedFx] ∧
    (specEightBucketClassify (fun _ => true) [attrSkippedFx]).skipped = [attrSkippedFx] ∧
    (specEightBucketClassify (fun _ => true) [attrSkippedFx]).failed = [] := by
  decide

/-- C6: `Report.succeeded` is `false` if and only if at least one platform's
`SystemReport` has a non-empty `failed` bucket. -/
theorem succeeded_false_iff_failed_nonempty (r : Report) :
    r.succeeded = false ↔ ∃ p ∈ r.system_reports, p.2.failed ≠ [] := by
  rw [Bool.eq_false_iff]
  unfold Report.succeeded
  simp [List.all_eq_true, List.length_eq_zero]

/-- C10: for the empty input set, `nix_build` returns the empty list
immediately after emitting the informational message, with no evaluator and
no build-tool invocation in its effect trace. -/
theorem nix_build_empty_set (oracle : String → Props) (pre_filter : List Attr → List Attr)
    (buildStderrLines : List String) (nix_store build_graph root nix_path : String)
    (allow : AllowedFeatures) (isLinux : Bool) (cache_dir system nixpkgs_config : String)
    (extraArgs : List String) :
    nix_build oracle pre_filter buildStderrLines nix_store build_graph root nix_path
        allow isLinux cache_dir system nixpkgs_config extraArgs []
      = some ⟨[], [BuildEffect.infoMsg "Nothing to be built."]⟩ ∧
    ([BuildEffect.infoMsg "Nothing to be built."]).countP BuildEffect.isRunBuild = 0 ∧
    ([BuildEffect.infoMsg "Nothing to be built."]).countP BuildEffect.isRunEval = 0 := by
  exact ⟨rfl, by decide, by decide⟩

/-- C3: for an input of two raw entries with the same output path, alias
merging in `_nix_eval_filter` is order-independent: with names of different
lengths the canonical record is the one with the shorter name regardless of
input order, the longer name appears exactly once in the canonical record's
alias list (which is exactly `[longer]`), and no name is lost; on a
name-length tie the earliest-seen record stays canonical, with the later
name as its only alias. -/
theorem alias_merge_two_entries (n₁ n₂ p : String) (props₁ props₂ : Props)
    (h₁ : props₁.path = some p) (h₂ : props₂.path = some p) :
    (n₁.length < n₂.length →
      _nix_eval_filter [(n₁, props₁), (n₂, props₂)]
          = [{ mkAttr n₁ props₁ with aliases := [n₂] }] ∧
      _nix_eval_filter [(n₂, props₂), (n₁, props₁)]
          = [{ mkAttr n₁ props₁ with aliases := [n₂] }]) ∧
    (n₁.length = n₂.length →
      _nix_eval_filter [(n₁, props₁), (n₂, props₂)]
          = [{ mkAttr n₁ props₁ with aliases := [n₂] }] ∧
      _nix_eval_filter [(n₂, props₂), (n₁, props₁)]
          = [{ mkAttr n₂ props₂ with aliases := [n₁] }]) := by
  constructor
  · intro hlen
    have hgt : ¬ (n₁.length > n₂.length) := by omega
    have hgt' : n₂.length > n₁.length := hlen
    constructor
    · unfold _nix_eval_filter
      simp [evalFilterStep, mkAttr, h₁, h₂, dictGet, dictUpsert, hgt]
    · unfold _nix_eval_filter
      simp [evalFilterStep, mkAttr, h₁, h₂, dictGet, dictUpsert, hgt']
  · intro hlen
    have hgt : ¬ (n₁.length > n₂.length) := by omega
    have hgt' : ¬ (n₂.length > n₁.length) := by omega
    constructor
    · unfold _nix_eval_filter
      simp [evalFilterStep, mkAttr, h₁, h₂, dictGet, dictUpsert, hgt]
    · unfold _nix_eval_filter
      simp [evalFilterStep, mkAttr, h₁, h₂, dictGet, dictUpsert, hgt']

/-- C3 witness: the spec's own scenario, `"foo"` and `"foobar"` resolving to
the same output path, in both input orders. -/
theorem alias_merge_two_entries_witness :
    _nix_eval_filter [("foo", propsFx), ("foobar", propsFx)]
        = [{ mkAttr "foo" propsFx with aliases := ["foobar"] }] ∧
    _nix_eval_filter [("foobar", propsFx), ("foo", propsFx)]
        = [{ mkAttr "foo" propsFx with aliases := ["foobar"] }] :=
  (alias_merge_two_entries "foo" "foobar" "/nix/store/p" propsFx propsFx rfl rfl).1
    (by decide)

/-- A pattern occurring in the middle of a character list is found by
`containsSubList`. -/
theorem containsSubList_middle (pat pre post : List Char) :
    containsSubList pat (pre ++ (pat ++ post)) = true := by
  induction pre with
  | nil =>
    cases pat with
    | nil => cases post <;> simp [containsSubList, List.isPrefixOf]
    | cons c cs =>
      simp only [List.nil_append, containsSubList, Bool.or_eq_true]
      left
      rw [List.isPrefixOf_iff_prefix]
      exact ⟨post, rfl⟩
  | cons c pre ih => simp [containsSubList, ih]

/-- A pattern occurring in the middle of a string is found by `strContains`. -/
theorem strContains_middle (pre pat post : String) :
    strContains (pre ++ pat ++ post) pat = true := by
  unfold strContains
  have h : (pre ++ pat ++ post).data = pre.data ++ (pat.data ++ post.data) := by
    simp [List.append_assoc]
  rw [h]
  exact containsSubList_middle _ _ _

/-- A pattern at the start of a string is found by `strContains`. -/
theorem strContains_self_append (pat post : String) :
    strContains (pat ++ post) pat = true := by
  unfold strContains
  have h : (pat ++ post).data = [] ++ (pat.data ++ post.data) := by simp
  rw [h]
  exact containsSubList_middle _ _ _

/-- C8: `nix_eval._eval` raises an error exactly when the external evaluator
exits non-zero; the raised error message carries the invoked command and the
path of the temporary input file, which is not deleted in that case; when
the evaluator exits zero, the parsed output is returned and the temporary
input file is deleted. -/
theorem evalOnce_error_behaviour (cmd : List String) (tmpName : String) (exec : EvalExec) :
    (exec.returncode ≠ 0 →
      (evalOnce cmd tmpName exec).1 = Except.error
          ⟨String.intercalate " " cmd ++ " failed to run, " ++ tmpName
            ++ " was stored inspection"⟩ ∧
      strContains (String.intercalate " " cmd ++ " failed to run, " ++ tmpName
          ++ " was stored inspection") (String.intercalate " " cmd) = true ∧
      strContains (String.intercalate " " cmd ++ " failed to run, " ++ tmpName
          ++ " was stored inspection") tmpName = true ∧
      (evalOnce cmd tmpName exec).2 = false) ∧
    (exec.returncode = 0 →
      (evalOnce cmd tmpName exec).1 = Except.ok exec.stdout ∧
      (evalOnce cmd tmpName exec).2 = true) := by
  constructor
  · intro h
    refine ⟨?_, ?_, ?_, ?_⟩
    · simp [evalOnce, h]
    · have : String.intercalate " " cmd ++ " failed to run, " ++ tmpName
          ++ " was stored inspection"
          = String.intercalate " " cmd
            ++ (" failed to run, " ++ (tmpName ++ " was stored inspection")) := by
        simp [String.append_assoc]
      rw [this]
      exact strContains_self_append _ _
    · have : String.intercalate " " cmd ++ " failed to run, " ++ tmpName
          ++ " was stored inspection"
          = (String.intercalate " " cmd ++ " failed to run, ") ++ tmpName
            ++ " was stored inspection" := by
        simp [String.append_assoc]
      rw [this]
      exact strContains_middle _ _ _
    · simp [evalOnce, h]
  · intro h
    constructor
    · simp [evalOnce, h]
    · simp [evalOnce, h]

/-- C8 witness: the theorem applied at concrete failing and succeeding
evaluator runs. -/
theorem evalOnce_error_behaviour_witness :
    (evalOnce ["nix", "eval"] "/tmp/attrs.json" ⟨1, []⟩).1 = Except.error
        ⟨"nix eval failed to run, /tmp/attrs.json was stored inspection"⟩ ∧
    (evalOnce ["nix", "eval"] "/tmp/attrs.json" ⟨1, []⟩).2 = false ∧
    (evalOnce ["nix", "eval"] "/tmp/attrs.json" ⟨0, [("a", propsFx)]⟩).1
        = Except.ok [("a", propsFx)] ∧
    (evalOnce ["nix", "eval"] "/tmp/attrs.json" ⟨0, [("a", propsFx)]⟩).2 = true := by
  have h₁ := (evalOnce_error_behaviour ["nix", "eval"] "/tmp/attrs.json" ⟨1, []⟩).1
    (by decide)
  have h₂ := (evalOnce_error_behaviour ["nix", "eval"] "/tmp/attrs.json"
    ⟨0, [("a", propsFx)]⟩).2 rfl
  exact ⟨h₁.1, h₁.2.2.2, h₂.1, h₂.2⟩

/-- C4 (code bug): for a non-empty buildable set, `nix_build` invokes the
external build tool TWICE, not once — the source calls `sh(command)` and
then immediately `sh(command, stderr=subprocess.PIPE)` with the same
command (`nix.py` lines 430-431).  Both invocations do pass `--keep-going`
(the second count below counts build invocations whose command contains
`--keep-going`). -/
theorem nix_build_invoked_twice :
    ((nix_build oracleFx id [] "/nix/store" "nix" "/root" "npath" ⟨true, true⟩ true
        "/cache" "x86_64-linux" "/cfg" [] ["pkga"]).map
        (fun res => res.effects.countP BuildEffect.isRunBuild)) = some 2 ∧
    ((nix_build oracleFx id [] "/nix/store" "nix" "/root" "npath" ⟨true, true⟩ true
        "/cache" "x86_64-linux" "/cfg" [] ["pkga"]).map
        (fun res => res.effects.countP (fun e =>
          match e with
          | BuildEffect.runBuild c => c.contains "--keep-going"
          | _ => false))) = some 2 := by
  constructor <;> decide

/-- With a positive cap `n`, the rendering loop of `html_pkgs_section`
starting at index `i ≤ n` renders exactly the next `n - i` items and then a
single ellipsis item, whenever more than `n - i` items remain. -/
theorem htmlItems_truncates (n : Nat) (hn : 0 < n) :
    ∀ (l : List Attr) (i : Nat), i ≤ n → n - i < l.length →
      htmlItems (n : Int) i l
        = (l.take (n - i)).foldr (fun a s => lineItem a ++ s) ""
          ++ "    <li>...</li>\n" := by
  intro l
  induction l with
  | nil =>
    intro i h1 h2
    simp at h2
  | cons pkg rest ih =>
    intro i h1 h2
    by_cases hi : i = n
    · have hc : ((n : Int) > 0 && ((i : Int) ≥ (n : Int))) = true := by
        rw [hi]
        simp
        exact_mod_cast hn
      simp only [htmlItems, hc, if_true]
      rw [hi, Nat.sub_self]
      simp
    · have hi' : i < n := lt_of_le_of_ne h1 hi
      have hc : ((n : Int) > 0 && ((i : Int) ≥ (n : Int))) = false := by
        simp
        intro _
        exact_mod_cast hi'
      have h5 : n - i = (n - (i + 1)) + 1 := by omega
      rw [htmlItems, hc]
      simp only [Bool.false_eq_true, if_false]
      rw [ih (i + 1) (by omega) (by simp at h2 ⊢; omega), h5]
      simp [List.take_succ_cons, String.append_assoc]

/-- C7 (amended): `html_pkgs_section` supports a display cap: called with a
positive cap smaller than the bucket length, it renders exactly the first
`cap` entries followed by exactly one ellipsis marker.  (`Report.markdown`,
however, never passes a cap — see the counterexample theorem — so report
buckets are rendered in full.) -/
theorem html_pkgs_section_truncates (emoji : String) (packages : List Attr)
    (msg what : String) (n : Nat) (hn : 0 < n) (hlen : n < packages.length) :
    html_pkgs_section emoji packages msg what (n : Int)
      = "<details>\n" ++ "  <summary>" ++ emoji ++ " " ++ toString packages.length
        ++ " " ++ what ++ (if packages.length > 1 then "s" else "") ++ " " ++ msg
        ++ ":</summary>\n  <ul>\n"
        ++ ((packages.take n).foldr (fun a s => lineItem a ++ s) ""
            ++ "    <li>...</li>\n")
        ++ "  </ul>\n</details>\n" := by
  unfold html_pkgs_section
  have h0 : ¬ (packages.length = 0) := by omega
  rw [if_neg h0]
  have h := htmlItems_truncates n hn packages 0 (by omega) (by omega)
  rw [Nat.sub_zero] at h
  rw [h]

/-- C7 witness: a bucket of 15 entries with a display cap of 10 renders the
first 10 entries plus one ellipsis marker. -/
theorem html_pkgs_section_truncates_witness :
    0 < 10 ∧ 10 < attrsFx15.length ∧
    html_pkgs_section ":x:" attrsFx15 "failed to build" "package" (10 : Int)
      = "<details>\n" ++ "  <summary>" ++ ":x:" ++ " " ++ toString attrsFx15.length
        ++ " " ++ "package" ++ (if attrsFx15.length > 1 then "s" else "") ++ " "
        ++ "failed to build" ++ ":</summary>\n  <ul>\n"
        ++ ((attrsFx15.take 10).foldr (fun a s => lineItem a ++ s) ""
            ++ "    <li>...</li>\n")
        ++ "  </ul>\n</details>\n" :=
  ⟨by decide, by decide,
    html_pkgs_section_truncates ":x:" attrsFx15 "failed to build" "package" 10
      (by decide) (by decide)⟩

set_option maxRecDepth 200000 in
/-- C7 counterexample: in the markdown rendering of a `Report`,
`Report.markdown` passes no display cap to `html_pkgs_section` (the cap
stays at its `-1` default), so a 15-entry failed bucket renders all 15
entries and no ellipsis marker — not 10 entries plus an ellipsis as the
claim states. -/
theorem report_markdown_not_truncated_counterexample :
    countSubStr (reportFx15.markdown none) "<li>" = 15 ∧
    countSubStr (reportFx15.markdown none) "<li>...</li>" = 0 := by
  constructor <;> decide

/-- `writeLinksStep` either leaves the state unchanged or appends the unique
symlink `actionOf` describes, marking that symlink's directory created. -/
theorem writeLinksStep_eq (verify pathExists : String → Bool) (system : String)
    (st : LinkState) (attr : Attr) :
    writeLinksStep verify pathExists system st attr =
      match actionOf verify pathExists system attr with
      | none => st
      | some act =>
        { actions := st.actions ++ [act]
          results_created := st.results_created || (act.dir == "results")
          failed_created := st.failed_created || (act.dir == "failed_results") } := by
  by_cases h1 : (attr.blacklisted || attr.drv_path == none) = true
  · simp [writeLinksStep, actionOf, h1]
  · rcases hp : attr.path with _ | p
    · simp [writeLinksStep, actionOf, h1, hp]
    · by_cases h2 : pathExists p = true
      · by_cases h3 : attr.was_build verify = true
        · simp [writeLinksStep, actionOf, h1, hp, h2, h3]
        · simp [writeLinksStep, actionOf, h1, hp, h2, h3]
      · simp [writeLinksStep, actionOf, h1, hp, h2]

/-- Closed form of the inner loop of `write_result_links` over one
platform's attrs. -/
theorem foldl_writeLinksStep (verify pathExists : String → Bool) (system : String)
    (attrs : List Attr) (st : LinkState) :
    attrs.foldl (writeLinksStep verify pathExists system) st =
      { actions := st.actions ++ attrs.filterMap (actionOf verify pathExists system)
        results_created := st.results_created
          || (attrs.filterMap (actionOf verify pathExists system)).any
              (fun a => a.dir == "results")
        failed_created := st.failed_created
          || (attrs.filterMap (actionOf verify pathExists system)).any
              (fun a => a.dir == "failed_results") } := by
  induction attrs generalizing st with
  | nil => simp
  | cons a l ih =>
    rw [List.foldl_cons, writeLinksStep_eq]
    rcases ha : actionOf verify pathExists system a with _ | act
    · simp [ih, List.filterMap_cons, ha]
    · simp [ih, List.filterMap_cons, ha, Bool.or_assoc]

/-- Closed form of `write_result_links` over all platforms. -/
theorem write_result_links_closed (verify pathExists : String → Bool)
    (aps : List (String × List Attr)) :
    write_result_links verify pathExists aps =
      { actions := aps.flatMap (fun p => p.2.filterMap (actionOf verify pathExists p.1))
        results_created :=
          (aps.flatMap (fun p => p.2.filterMap (actionOf verify pathExists p.1))).any
            (fun a => a.dir == "results")
        failed_created :=
          (aps.flatMap (fun p => p.2.filterMap (actionOf verify pathExists p.1))).any
            (fun a => a.dir == "failed_results") } := by
  unfold write_result_links
  suffices h : ∀ st : LinkState,
      aps.foldl (fun st p => p.2.foldl (writeLinksStep verify pathExists p.1) st) st =
        { actions := st.actions
            ++ aps.flatMap (fun p => p.2.filterMap (actionOf verify pathExists p.1))
          results_created := st.results_created
            || (aps.flatMap (fun p => p.2.filterMap (actionOf verify pathExists p.1))).any
                (fun a => a.dir == "results")
          failed_created := st.failed_created
            || (aps.flatMap (fun p => p.2.filterMap (actionOf verify pathExists p.1))).any
                (fun a => a.dir == "failed_results") } by
    rw [h]
    rfl
  induction aps with
  | nil => intro st; simp
  | cons q aps ih =>
    intro st
    rw [List.foldl_cons, foldl_writeLinksStep, ih]
    simp [List.any_append, Bool.or_assoc]

/-- `actionOf` produces a symlink exactly for a non-blacklisted attr with a
derivation path whose output path is present on disk. -/
theorem actionOf_eq_some_iff (verify pathExists : String → Bool) (system : String)
    (a : Attr) (act : SymlinkAction) :
    actionOf verify pathExists system a = some act ↔
      (a.blacklisted = false ∧ a.drv_path ≠ none ∧ ∃ out,
        a.path = some out ∧ pathExists out = true ∧
        act = ⟨if a.was_build verify then "results" else "failed_results",
               a.name ++ "-" ++ system, out⟩) := by
  by_cases h1 : (a.blacklisted || a.drv_path == none) = true
  · simp only [actionOf, h1, if_true]
    constructor
    · intro h; cases h
    · rintro ⟨hb, hd, -⟩
      rw [Bool.or_eq_true] at h1
      rcases h1 with h | h
      · rw [hb] at h; cases h
      · rw [beq_iff_eq] at h; exact absurd h hd
  · rw [Bool.or_eq_true, not_or] at h1
    obtain ⟨hb', hd'⟩ := h1
    have h1 : (a.blacklisted || a.drv_path == none) = false := by
      rw [Bool.or_eq_false_iff]
      exact ⟨Bool.eq_false_iff.mpr hb', Bool.eq_false_iff.mpr hd'⟩
    have hb : a.blacklisted = false := Bool.eq_false_iff.mpr hb'
    have hd : a.drv_path ≠ none := by
      intro h
      apply hd'
      simp [h]
    rcases hp : a.path with _ | p
    · simp only [actionOf, h1, Bool.false_eq_true, if_false, hp]
      constructor
      · intro h; cases h
      · rintro ⟨-, -, out, hout, -⟩
        cases hout
    · by_cases h2 : pathExists p = true
      · constructor
        · intro h
          have hs : some (⟨if a.was_build verify then "results" else "failed_results",
              a.name ++ "-" ++ system, p⟩ : SymlinkAction) = some act := by
            rw [← h]
            simp [actionOf, h1, hp, h2]
          exact ⟨hb, hd, p, rfl, h2, (Option.some.inj hs).symm⟩
        · rintro ⟨-, -, out, hout, -, hact⟩
          have hout' := Option.some.inj hout
          subst hout'
          simp [actionOf, h1, hp, h2, hact]
      · constructor
        · intro h
          have hs : (none : Option SymlinkAction) = some act := by
            rw [← h]
            simp [actionOf, h1, hp, h2]
          cases hs
        · rintro ⟨-, -, out, hout, hpe, -⟩
          have hout' := Option.some.inj hout
          subst hout'
          exact absurd hpe h2

/-- C9 (amended): `write_result_links` creates or replaces a symlink named
`{identifier}-{platform}` pointing at the record's output path for exactly
the non-blacklisted records with a derivation path whose output path is set
and exists on disk — placed under `results` when the record verifies as
built and under `failed_results` otherwise — and each of the two
directories is created if and only if at least one entry is placed in it. -/
theorem write_result_links_spec (verify pathExists : String → Bool)
    (aps : List (String × List Attr)) :
    (∀ act, act ∈ (write_result_links verify pathExists aps).actions ↔
      ∃ p ∈ aps, ∃ a ∈ p.2, ∃ out,
        a.blacklisted = false ∧ a.drv_path ≠ none ∧ a.path = some out ∧
        pathExists out = true ∧
        act = ⟨if a.was_build verify then "results" else "failed_results",
               a.name ++ "-" ++ p.1, out⟩) ∧
    ((write_result_links verify pathExists aps).results_created = true ↔
      ∃ act ∈ (write_result_links verify pathExists aps).actions,
        act.dir = "results") ∧
    ((write_result_links verify pathExists aps).failed_created = true ↔
      ∃ act ∈ (write_result_links verify pathExists aps).actions,
        act.dir = "failed_results") := by
  rw [write_result_links_closed]
  refine ⟨fun act => ?_, ?_, ?_⟩
  · simp only [List.mem_flatMap, List.mem_filterMap, actionOf_eq_some_iff]
    constructor
    · rintro ⟨p, hp, a, ha, hb, hd, out, hout, hpe, hact⟩
      exact ⟨p, hp, a, ha, out, hb, hd, hout, hpe, hact⟩
    · rintro ⟨p, hp, a, ha, out, hb, hd, hout, hpe, hact⟩
      exact ⟨p, hp, a, ha, hb, hd, out, hout, hpe, hact⟩
  · simp only [List.any_eq_true, beq_iff_eq]
  · simp only [List.any_eq_true, beq_iff_eq]

/-- C9 counterexample: a non-blacklisted, successfully evaluated record
(derivation path present) whose output path is missing gets NO symlink at
all, although the claim promises one for every non-blacklisted,
successfully-evaluated record. -/
theorem write_result_links_counterexample :
    attrNoOutPathFx.blacklisted = false ∧ attrNoOutPathFx.drv_path ≠ none ∧
    (write_result_links (fun _ => true) (fun _ => true)
        [("x86_64-linux", [attrNoOutPathFx])]).actions = [] := by
  refine ⟨by decide, by decide, by decide⟩

/-- Upserting a fresh key appends the entry. -/
theorem dictUpsert_eq_append {α : Type} (m : List (String × α)) (kv : String × α)
    (h : dictGet m kv.1 = none) : dictUpsert m kv = m ++ [kv] := by
  induction m with
  | nil => rfl
  | cons e rest ih =>
    obtain ⟨k, v⟩ := e
    by_cases hk : k = kv.1
    · rw [dictGet, if_pos hk] at h
      cases h
    · rw [dictGet, if_neg hk] at h
      rw [dictUpsert, if_neg hk, ih h]
      rfl

/-- A key absent from both halves is absent from their concatenation. -/
theorem dictGet_append_none {α : Type} (m n : List (String × α)) (k : String)
    (hm : dictGet m k = none) (hn : dictGet n k = none) :
    dictGet (m ++ n) k = none := by
  induction m with
  | nil => simpa using hn
  | cons e rest ih =>
    obtain ⟨k', v⟩ := e
    by_cases hk : k' = k
    · rw [dictGet, if_pos hk] at hm
      cases hm
    · rw [dictGet, if_neg hk] at hm
      rw [List.cons_append, dictGet, if_neg hk]
      exact ih hm

/-- `dict.update` with fresh, pairwise-distinct keys is concatenation. -/
theorem dictUpdate_eq_append {α : Type} (new : List (String × α)) :
    ∀ m : List (String × α), (new.map Prod.fst).Nodup →
      (∀ kv ∈ new, dictGet m kv.1 = none) →
      dictUpdate m new = m ++ new := by
  induction new with
  | nil => intro m _ _; simp [dictUpdate]
  | cons kv new ih =>
    intro m hnd hfresh
    have h1 : dictUpsert m kv = m ++ [kv] :=
      dictUpsert_eq_append m kv (hfresh kv (List.mem_cons_self kv new))
    have hstep : dictUpdate m (kv :: new) = dictUpdate (dictUpsert m kv) new := rfl
    rw [hstep, h1, ih (m ++ [kv]) (by simpa using hnd.of_cons)]
    · rw [List.append_assoc]
      rfl
    · intro kv' hkv'
      apply dictGet_append_none
      · exact hfresh kv' (List.mem_cons_of_mem kv hkv')
      · rw [List.map_cons] at hnd
        have hne : kv.1 ≠ kv'.1 := by
          intro he
          exact (List.nodup_cons.mp hnd).1 (he ▸ List.mem_map_of_mem Prod.fst hkv')
        rw [dictGet, if_neg hne]
        rfl

/-- A key outside the requested chunk is absent from the chunk's
evaluation result. -/
theorem dictGet_eval_eq_none (oracle : String → Props) (c : List String) (x : String)
    (hx : x ∉ c) : dictGet (_eval oracle c) x = none := by
  induction c with
  | nil => rfl
  | cons y ys ih =>
    have hy : y ≠ x := fun h => hx (h ▸ List.mem_cons_self y ys)
    rw [_eval, List.map_cons, dictGet, if_neg hy]
    exact ih (fun h => hx (List.mem_cons_of_mem y h))

/-- The keys of a chunk's evaluation result are the chunk itself. -/
theorem _eval_keys (oracle : String → Props) (c : List String) :
    (_eval oracle c).map Prod.fst = c := by
  induction c <;> simp_all [_eval]

/-- Chunk evaluation distributes over concatenation. -/
theorem _eval_append (oracle : String → Props) (a b : List String) :
    _eval oracle (a ++ b) = _eval oracle a ++ _eval oracle b := by
  simp [_eval]

/-- The chunked, merged evaluation of a duplicate-free identifier list is
its one-chunk evaluation (generalized over the fuel and the accumulated
dictionary). -/
theorem chunksGo_fold_eval (oracle : String → Props) :
    ∀ (fuel : Nat) (l : List String) (m : List (String × Props)),
      l.length ≤ fuel → l.Nodup → (∀ x ∈ l, dictGet m x = none) →
      (chunksGo fuel l).foldl (fun acc c => dictUpdate acc (_eval oracle c)) m
        = m ++ _eval oracle l := by
  intro fuel
  induction fuel with
  | zero =>
    intro l m hlen _ _
    have hl : l = [] := List.length_eq_zero.mp (Nat.le_zero.mp hlen)
    subst hl
    simp [chunksGo, _eval]
  | succ fuel ih =>
    intro l m hlen hnd hfresh
    cases l with
    | nil => simp [chunksGo, _eval]
    | cons x xs =>
      have hsplit : (x :: xs).take MAX_ATTRS_AT_ONCE ++ (x :: xs).drop MAX_ATTRS_AT_ONCE
          = x :: xs := List.take_append_drop _ _
      have hnd' : ((x :: xs).take MAX_ATTRS_AT_ONCE
          ++ (x :: xs).drop MAX_ATTRS_AT_ONCE).Nodup := by rw [hsplit]; exact hnd
      obtain ⟨hndt, hndd, hdisj⟩ := List.nodup_append.mp hnd'
      have hstep : dictUpdate m (_eval oracle ((x :: xs).take MAX_ATTRS_AT_ONCE))
          = m ++ _eval oracle ((x :: xs).take MAX_ATTRS_AT_ONCE) := by
        apply dictUpdate_eq_append
        · rw [_eval_keys]
          exact hndt
        · intro kv hkv
          apply hfresh
          have hk := List.mem_map_of_mem Prod.fst hkv
          rw [_eval_keys] at hk
          exact List.mem_of_mem_take hk
      have hlen' : ((x :: xs).drop MAX_ATTRS_AT_ONCE).length ≤ fuel := by
        have hmax : MAX_ATTRS_AT_ONCE = 4096 := rfl
        simp only [List.length_cons] at hlen
        simp only [List.length_drop, List.length_cons, hmax]
        omega
      have hfresh' : ∀ y ∈ (x :: xs).drop MAX_ATTRS_AT_ONCE,
          dictGet (m ++ _eval oracle ((x :: xs).take MAX_ATTRS_AT_ONCE)) y = none := by
        intro y hy
        apply dictGet_append_none
        · exact hfresh y (List.mem_of_mem_drop hy)
        · exact dictGet_eval_eq_none oracle _ y (fun hmem => hdisj hmem hy)
      rw [chunksGo, List.foldl_cons, hstep, ih _ _ hlen' hndd hfresh',
        List.append_assoc, ← _eval_append, hsplit]

/-- Inserting into a sorted list is a permutation of consing. -/
theorem insertSorted_perm (x : String) (l : List String) :
    (insertSorted x l).Perm (x :: l) := by
  induction l with
  | nil => simp [insertSorted]
  | cons y ys ih =>
    rw [insertSorted]
    by_cases h : x ≤ y
    · rw [if_pos h]
    · rw [if_neg h]
      exact (ih.cons y).trans (List.Perm.swap x y ys)

/-- `pySorted` permutes its input. -/
theorem pySorted_perm (l : List String) : (pySorted l).Perm l := by
  induction l with
  | nil => rfl
  | cons x xs ih =>
    have hfold : pySorted (x :: xs) = insertSorted x (pySorted xs) := rfl
    rw [hfold]
    exact (insertSorted_perm x (pySorted xs)).trans (ih.cons x)

/-- C5 (spec-modelled): for every duplicate-free identifier set, evaluating
it by sorting, splitting into chunks of at most 4096 and merging the
per-chunk mappings yields exactly the same final record list as evaluating
the whole sorted set in a single chunk; chunking is not observable in the
output. -/
theorem nix_eval_chunking_invisible (oracle : String → Props) (attrs : List String)
    (h : attrs.Nodup) :
    nix_eval oracle attrs = nix_eval_single_chunk oracle attrs := by
  unfold nix_eval nix_eval_single_chunk eval_data chunksOf4096
  congr 1
  have hnd : (pySorted attrs).Nodup := (pySorted_perm attrs).symm.nodup h
  have hmain := chunksGo_fold_eval oracle (pySorted attrs).length (pySorted attrs) []
    le_rfl hnd (fun x _ => rfl)
  simpa using hmain

/-- C5 witness: a concrete two-identifier set evaluated chunked and in one
chunk. -/
theorem nix_eval_chunking_invisible_witness :
    nix_eval oracleFx ["b", "a"] = nix_eval_single_chunk oracleFx ["b", "a"] :=
  nix_eval_chunking_invisible oracleFx ["b", "a"] (by decide)

/-- When at most one attr carries the derivation path `d`, updating the last
occurrence is the same as updating every occurrence pointwise. -/
theorem updateLast_eq_map (d : String) (f : Attr → Attr) :
    ∀ l : List Attr, l.countP (fun a => a.drv_path == some d) ≤ 1 →
      updateLast d f l = l.map (fun a => if a.drv_path == some d then f a else a) := by
  intro l
  induction l with
  | nil => intro _; rfl
  | cons a rest ih =>
    intro h
    rw [List.countP_cons] at h
    rw [updateLast]
    by_cases hany : rest.any (fun b => b.drv_path == some d) = true
    · have h1 : 0 < rest.countP (fun b => b.drv_path == some d) := by
        obtain ⟨b, hb, hbp⟩ := List.any_eq_true.mp hany
        exact List.countP_pos_iff.mpr ⟨b, hb, hbp⟩
      have hhead : (a.drv_path == some d) = false := by
        cases hx : (a.drv_path == some d)
        · rfl
        · exfalso
          rw [hx, if_pos rfl] at h
          omega
      rw [if_pos hany, List.map_cons, hhead]
      simp only [Bool.false_eq_true, if_false]
      rw [ih (by omega)]
    · have hnone : ∀ b ∈ rest, (b.drv_path == some d) = false := by
        intro b hb
        cases hx : (b.drv_path == some d)
        · rfl
        · exact absurd (List.any_eq_true.mpr ⟨b, hb, hx⟩) hany
      have hmap : rest.map (fun a => if a.drv_path == some d then f a else a) = rest := by
        have h1 : rest.map (fun a => if a.drv_path == some d then f a else a)
            = rest.map (fun a => a) :=
          List.map_congr_left (fun b hb => by rw [hnone b hb]; rfl)
        rw [h1, List.map_id']
      have hupd : updateLast d f rest = rest := by
        rw [ih (by omega), hmap]
      rw [if_neg hany, List.map_cons]
      by_cases hhead : (a.drv_path == some d) = true
      · rw [if_pos hhead, hhead, if_pos rfl, hmap]
      · have hhead' : (a.drv_path == some d) = false := by
          cases hx : (a.drv_path == some d)
          · rfl
          · exact absurd hx hhead
        rw [if_neg hhead, hhead', hupd, hmap]
        simp

/-- Mapping a `drv_path`-preserving function does not change the per-`d`
occurrence counts. -/
theorem countP_drv_map_eq (g : Attr → Attr) (hg : ∀ a, (g a).drv_path = a.drv_path)
    (attrs : List Attr) (d : String) :
    (attrs.map g).countP (fun a => a.drv_path == some d)
      = attrs.countP (fun a => a.drv_path == some d) := by
  induction attrs with
  | nil => rfl
  | cons a rest ih => simp [List.countP_cons, ih, hg]

/-- Duplicate-free derivation paths give at most one occurrence per `d`. -/
theorem countP_drv_le_one (attrs : List Attr)
    (h : (attrs.filterMap (fun a => a.drv_path)).Nodup) (d : String) :
    attrs.countP (fun a => a.drv_path == some d) ≤ 1 := by
  induction attrs with
  | nil => simp
  | cons a rest ih =>
    rcases hdp : a.drv_path with _ | d₀
    · have hstep : (a :: rest).countP (fun a => a.drv_path == some d)
          = rest.countP (fun a => a.drv_path == some d) := by
        rw [List.countP_cons]
        simp [hdp]
      rw [List.filterMap_cons, hdp] at h
      rw [hstep]
      exact ih h
    · rw [List.filterMap_cons, hdp] at h
      obtain ⟨hnotin, h'⟩ := List.nodup_cons.mp h
      by_cases he : d₀ = d
      · subst he
        have hz : rest.countP (fun a => a.drv_path == some d₀) = 0 := by
          rw [List.countP_eq_zero]
          intro b hb hbp
          rw [beq_iff_eq] at hbp
          exact hnotin (List.mem_filterMap.mpr ⟨b, hb, hbp⟩)
        have hstep : (a :: rest).countP (fun a => a.drv_path == some d₀)
            = rest.countP (fun a => a.drv_path == some d₀) + 1 := by
          rw [List.countP_cons]
          simp [hdp]
        rw [hstep, hz]
      · have hstep : (a :: rest).countP (fun a => a.drv_path == some d)
            = rest.countP (fun a => a.drv_path == some d) := by
          rw [List.countP_cons]
          simp [hdp, he]
        rw [hstep]
        exact ih h'

/-- The single-step update of `toutsPointwise` preserves `drv_path`. -/
theorem toutsStep_drv (dl : String × String) (a : Attr) :
    ((if a.drv_path == some dl.1
      then { a with build_err_msg := some dl.2, timed_out := true } else a) : Attr).drv_path
      = a.drv_path := by
  by_cases h : (a.drv_path == some dl.1) = true
  · rw [if_pos h]
  · rw [if_neg h]

/-- `toutsPointwise` preserves `drv_path`. -/
theorem toutsPointwise_drv (touts : List (String × String)) :
    ∀ a : Attr, (toutsPointwise touts a).drv_path = a.drv_path := by
  induction touts with
  | nil => intro a; rfl
  | cons dl rest ih =>
    intro a
    have hstep : toutsPointwise (dl :: rest) a
        = toutsPointwise rest (if a.drv_path == some dl.1
            then { a with build_err_msg := some dl.2, timed_out := true } else a) := rfl
    rw [hstep, ih, toutsStep_drv]

/-- `applyTimeouts` acts pointwise when derivation paths are
duplicate-free. -/
theorem applyTimeouts_eq_map (touts : List (String × String)) :
    ∀ attrs : List Attr,
      (∀ d, attrs.countP (fun a => a.drv_path == some d) ≤ 1) →
      applyTimeouts touts attrs = attrs.map (toutsPointwise touts) := by
  induction touts with
  | nil =>
    intro attrs _
    have : attrs.map (toutsPointwise []) = attrs.map (fun a => a) := rfl
    rw [applyTimeouts, List.foldl_nil, this, List.map_id']
  | cons dl touts ih =>
    intro attrs hcnt
    have hstep : applyTimeouts (dl :: touts) attrs
        = applyTimeouts touts (updateLast dl.1
            (fun a => { a with build_err_msg := some dl.2, timed_out := true }) attrs) := rfl
    rw [hstep, updateLast_eq_map dl.1 _ attrs (hcnt dl.1),
      ih _ (fun d => by
        rw [countP_drv_map_eq _ (toutsStep_drv dl) attrs d]
        exact hcnt d),
      List.map_map]
    rfl

/-- The single-step update of `depsPointwise` preserves `drv_path`. -/
theorem depsStep_drv (anyTimeout : Bool) (stderrAll : String) (d : String) (a : Attr) :
    ((if a.drv_path == some d
      then { a with build_err_msg := some stderrAll,
                    timed_out := if anyTimeout then true else a.timed_out }
      else a) : Attr).drv_path = a.drv_path := by
  by_cases h : (a.drv_path == some d) = true
  · rw [if_pos h]
  · rw [if_neg h]

/-- `applyDeps` acts pointwise when derivation paths are duplicate-free. -/
theorem applyDeps_eq_map (anyTimeout : Bool) (stderrAll : String) (deps : List String) :
    ∀ attrs : List Attr,
      (∀ d, attrs.countP (fun a => a.drv_path == some d) ≤ 1) →
      applyDeps deps anyTimeout stderrAll attrs
        = attrs.map (depsPointwise deps anyTimeout stderrAll) := by
  induction deps with
  | nil =>
    intro attrs _
    have : attrs.map (depsPointwise [] anyTimeout stderrAll) = attrs.map (fun a => a) := rfl
    rw [applyDeps, List.foldl_nil, this, List.map_id']
  | cons d deps ih =>
    intro attrs hcnt
    have hstep : applyDeps (d :: deps) anyTimeout stderrAll attrs
        = applyDeps deps anyTimeout stderrAll (updateLast d
            (fun a => { a with build_err_msg := some stderrAll,
                               timed_out := if anyTimeout then true else a.timed_out })
            attrs) := rfl
    rw [hstep, updateLast_eq_map d _ attrs (hcnt d),
      ih _ (fun d' => by
        rw [countP_drv_map_eq _ (depsStep_drv anyTimeout stderrAll d) attrs d']
        exact hcnt d'),
      List.map_map]
    rfl

/-- The keys after an upsert: unchanged when the key was present, otherwise
the new key is appended. -/
theorem dictUpsert_keys {α : Type} (m : List (String × α)) (kv : String × α) :
    (dictUpsert m kv).map Prod.fst
      = if kv.1 ∈ m.map Prod.fst then m.map Prod.fst
        else m.map Prod.fst ++ [kv.1] := by
  induction m with
  | nil => simp [dictUpsert]
  | cons e rest ih =>
    obtain ⟨k, v⟩ := e
    by_cases hk : k = kv.1
    · rw [dictUpsert, if_pos hk]
      simp [hk]
    · rw [dictUpsert, if_neg hk]
      simp only [List.map_cons, ih]
      by_cases hmem : kv.1 ∈ rest.map Prod.fst
      · simp [hmem, hk]
      · simp [hmem, Ne.symm hk]

/-- Upserting preserves duplicate-freeness of the keys. -/
theorem dictUpsert_keys_nodup {α : Type} (m : List (String × α)) (kv : String × α)
    (h : (m.map Prod.fst).Nodup) : ((dictUpsert m kv).map Prod.fst).Nodup := by
  rw [dictUpsert_keys]
  by_cases hmem : kv.1 ∈ m.map Prod.fst
  · rwa [if_pos hmem]
  · rw [if_neg hmem]
    simp [List.nodup_append, h, hmem]

/-- One line of the stderr scan keeps the `has_timeout` keys
duplicate-free. -/
theorem scanLine_touts_keys_nodup (ns : String)
    (acc acc' : List String × List (String × String)) (line : String)
    (h : scanLine ns acc line = some acc')
    (hnd : (acc.2.map Prod.fst).Nodup) : (acc'.2.map Prod.fst).Nodup := by
  by_cases h1 : strContains line "dependencies couldn\x27t be built" = true
  · rcases hf : findStoreItem ns line with _ | item
    · simp [scanLine, h1, hf] at h
    · by_cases h2 : strContains line "timed out after" = true
      · simp only [scanLine, h1, hf, h2, if_true] at h
        have h' := Option.some.inj h
        rw [← h']
        exact dictUpsert_keys_nodup _ _ hnd
      · simp only [scanLine, h1, hf, h2] at h
        have h' := Option.some.inj (by simpa using h)
        rw [← h']
        exact hnd
  · by_cases h2 : strContains line "timed out after" = true
    · rcases hf : findStoreItem ns line with _ | item
      · simp [scanLine, h1, hf, h2] at h
      · simp only [scanLine, h1, hf, h2, if_true] at h
        have h' := Option.some.inj (by simpa using h)
        rw [← h']
        exact dictUpsert_keys_nodup _ _ hnd
    · simp only [scanLine, h1, h2] at h
      have h' := Option.some.inj (by simpa using h)
      rw [← h']
      exact hnd

/-- The whole stderr scan keeps the `has_timeout` keys duplicate-free. -/
theorem scanLines_touts_keys_nodup (ns : String) :
    ∀ (lines : List String) (acc res : List String × List (String × String)),
      (acc.2.map Prod.fst).Nodup →
      List.foldlM (scanLine ns) acc lines = some res →
      (res.2.map Prod.fst).Nodup := by
  intro lines
  induction lines with
  | nil =>
    intro acc res h hf
    have : acc = res := Option.some.inj (by simpa [List.foldlM] using hf)
    rw [← this]
    exact h
  | cons line rest ih =>
    intro acc res h hf
    rw [List.foldlM_cons] at hf
    rcases hs : scanLine ns acc line with _ | acc'
    · rw [hs] at hf
      simp at hf
    · rw [hs] at hf
      simp only [Option.bind_eq_bind, Option.some_bind] at hf
      exact ih acc' res (scanLine_touts_keys_nodup ns acc acc' line hs h) hf

/-- In an association list with duplicate-free keys, a key determines its
value. -/
theorem keys_nodup_val_unique {α : Type} :
    ∀ (m : List (String × α)), (m.map Prod.fst).Nodup →
      ∀ (d : String) (v v' : α), (d, v) ∈ m → (d, v') ∈ m → v = v' := by
  intro m
  induction m with
  | nil => intro _ d v v' hv _; cases hv
  | cons kv rest ih =>
    intro h d v v' hv hv'
    rw [List.map_cons] at h
    obtain ⟨hnotin, h'⟩ := List.nodup_cons.mp h
    rcases List.mem_cons.mp hv with he | hm
    · rcases List.mem_cons.mp hv' with he' | hm'
      · rw [← he] at he'
        exact (Prod.mk.injEq _ _ _ _).mp he'.symm |>.2
      · exfalso
        apply hnotin
        rw [← he]
        simpa using List.mem_map_of_mem Prod.fst hm'
    · rcases List.mem_cons.mp hv' with he' | hm'
      · exfalso
        apply hnotin
        rw [← he']
        simpa using List.mem_map_of_mem Prod.fst hm
      · exact ih h' d v v' hm hm'

/-- An attr matching no timeout entry is left unchanged. -/
theorem toutsPointwise_no_match :
    ∀ (touts : List (String × String)) (a : Attr),
      (∀ dl ∈ touts, (a.drv_path == some dl.1) = false) →
      toutsPointwise touts a = a := by
  intro touts
  induction touts with
  | nil => intro a _; rfl
  | cons dl rest ih =>
    intro a h
    have hstep : toutsPointwise (dl :: rest) a = toutsPointwise rest
        (if a.drv_path == some dl.1
         then { a with build_err_msg := some dl.2, timed_out := true } else a) := rfl
    rw [hstep, h dl (List.mem_cons_self dl rest)]
    simp only [Bool.false_eq_true, if_false]
    exact ih a (fun dl' h' => h dl' (List.mem_cons_of_mem dl h'))

/-- An attr whose derivation appears in the (duplicate-free-keyed) timeout
dict gets exactly that timeout line as its message and is marked
timed-out. -/
theorem toutsPointwise_of_mem (d ℓ : String) (a : Attr) (ha : a.drv_path = some d) :
    ∀ touts : List (String × String), (touts.map Prod.fst).Nodup →
      (d, ℓ) ∈ touts →
      toutsPointwise touts a
        = { a with build_err_msg := some ℓ, timed_out := true } := by
  intro touts
  induction touts with
  | nil => intro _ hmem; cases hmem
  | cons dl rest ih =>
    intro hnd hmem
    rw [List.map_cons] at hnd
    obtain ⟨hnotin, hnd'⟩ := List.nodup_cons.mp hnd
    have hstep : toutsPointwise (dl :: rest) a = toutsPointwise rest
        (if a.drv_path == some dl.1
         then { a with build_err_msg := some dl.2, timed_out := true } else a) := rfl
    by_cases hd : dl.1 = d
    · have hc : (a.drv_path == some dl.1) = true := by
        rw [ha, hd]
        exact beq_self_eq_true _
      rw [hstep, hc, if_pos rfl]
      have hl : dl.2 = ℓ := by
        rcases List.mem_cons.mp hmem with he | hm
        · rw [← he]
        · exfalso
          apply hnotin
          rw [hd]
          simpa using List.mem_map_of_mem Prod.fst hm
      rw [hl]
      apply toutsPointwise_no_match
      intro dl' h'
      have hne : d ≠ dl'.1 := by
        intro he
        apply hnotin
        rw [hd, he]
        exact List.mem_map_of_mem Prod.fst h'
      have hdrv : ({ a with build_err_msg := some ℓ, timed_out := true } : Attr).drv_path
          = some d := ha
      rw [hdrv, beq_eq_false_iff_ne]
      intro hcontra
      exact hne (Option.some.inj hcontra)
    · have hc : (a.drv_path == some dl.1) = false := by
        rw [ha, beq_eq_false_iff_ne]
        intro hcontra
        exact hd (Option.some.inj hcontra).symm
      rw [hstep, hc]
      simp only [Bool.false_eq_true, if_false]
      apply ih hnd'
      rcases List.mem_cons.mp hmem with he | hm
      · exfalso
        apply hd
        rw [← he]
      · exact hm

/-- An attr matching no dependency-failure entry is left unchanged. -/
theorem depsPointwise_no_match (anyT : Bool) (s : String) :
    ∀ (deps : List String) (a : Attr),
      (∀ d' ∈ deps, (a.drv_path == some d') = false) →
      depsPointwise deps anyT s a = a := by
  intro deps
  induction deps with
  | nil => intro a _; rfl
  | cons d₀ rest ih =>
    intro a h
    have hstep : depsPointwise (d₀ :: rest) anyT s a = depsPointwise rest anyT s
        (if a.drv_path == some d₀
         then { a with build_err_msg := some s,
                       timed_out := if anyT then true else a.timed_out } else a) := rfl
    rw [hstep, h d₀ (List.mem_cons_self d₀ rest)]
    simp only [Bool.false_eq_true, if_false]
    exact ih a (fun d' h' => h d' (List.mem_cons_of_mem d₀ h'))

/-- An attr that already carries the full stderr as its message (and is
already timed-out when any timeout occurred) is a fixed point of the
dependency-failure loop. -/
theorem depsPointwise_fix (anyT : Bool) (s : String) :
    ∀ (deps : List String) (acc : Attr), acc.build_err_msg = some s →
      (anyT = true → acc.timed_out = true) →
      depsPointwise deps anyT s acc = acc := by
  intro deps
  induction deps with
  | nil => intro acc _ _; rfl
  | cons d₀ rest ih =>
    intro acc hmsg ht
    have hstep : depsPointwise (d₀ :: rest) anyT s acc = depsPointwise rest anyT s
        (if acc.drv_path == some d₀
         then { acc with build_err_msg := some s,
                         timed_out := if anyT then true else acc.timed_out }
         else acc) := rfl
    by_cases hc : (acc.drv_path == some d₀) = true
    · rw [hstep, hc, if_pos rfl]
      have hfix : { acc with
                      build_err_msg := some s
                      timed_out := if anyT then true else acc.timed_out } = acc := by
        cases anyT with
        | false =>
          show ({ acc with
                    build_err_msg := some s
                    timed_out := acc.timed_out } : Attr) = acc
          rw [← hmsg]
        | true =>
          show ({ acc with
                    build_err_msg := some s
                    timed_out := true } : Attr) = acc
          rw [← hmsg, ← ht rfl]
      rw [hfix]
      exact ih acc hmsg ht
    · have hc' : (acc.drv_path == some d₀) = false := by
        cases hx : (acc.drv_path == some d₀)
        · rfl
        · exact absurd hx hc
      rw [hstep, hc']
      simp only [Bool.false_eq_true, if_false]
      exact ih acc hmsg ht

/-- An attr whose derivation appears among the dependency failures ends with
the full stderr as its message; it is marked timed-out exactly when any
timeout occurred (otherwise its flag is unchanged). -/
theorem depsPointwise_of_mem (anyT : Bool) (s d : String) :
    ∀ (deps : List String) (a : Attr), a.drv_path = some d → d ∈ deps →
      depsPointwise deps anyT s a
        = { a with build_err_msg := some s,
                   timed_out := if anyT then true else a.timed_out } := by
  intro deps
  induction deps with
  | nil => intro a _ hmem; cases hmem
  | cons d₀ rest ih =>
    intro a ha hmem
    have hstep : depsPointwise (d₀ :: rest) anyT s a = depsPointwise rest anyT s
        (if a.drv_path == some d₀
         then { a with build_err_msg := some s,
                       timed_out := if anyT then true else a.timed_out } else a) := rfl
    by_cases hd : d₀ = d
    · have hc : (a.drv_path == some d₀) = true := by
        rw [ha, hd]
        exact beq_self_eq_true _
      rw [hstep, hc, if_pos rfl]
      apply depsPointwise_fix
      · rfl
      · intro hT
        show (if anyT then true else a.timed_out) = true
        rw [hT, if_pos rfl]
    · have hc : (a.drv_path == some d₀) = false := by
        rw [ha, beq_eq_false_iff_ne]
        intro hcontra
        exact hd (Option.some.inj hcontra).symm
      rw [hstep, hc]
      simp only [Bool.false_eq_true, if_false]
      have hmem' : d ∈ rest := by
        rcases List.mem_cons.mp hmem with he | hm
        · exact absurd he.symm hd
        · exact hm
      exact ih a ha hmem'

/-- C2 (amended): when parsing the build tool's captured stderr (derivation
paths being duplicate-free): a record whose build-identifier appears in a
"dependencies couldn't be built" line gets the full noise-stripped stderr as
its build-error-message, and its timed-out flag stays false when no
"timed out after" line occurred anywhere; a record whose build-identifier
appears in a "timed out after" line is marked timed-out with that specific
line as its message — unless the record also appears in a
dependency-failure line, in which case its message is overwritten with the
full stripped stderr; and if at least one timeout line occurred, every
dependency-failure record is also marked timed-out. -/
theorem parse_build_stderr_spec (nix_store : String) (lines : List String)
    (attrs : List Attr) (deps : List String) (touts : List (String × String))
    (hscan : scanLines nix_store (stripBoring lines) = some (deps, touts))
    (hnodup : (attrs.filterMap (fun a => a.drv_path)).Nodup)
    (i : Nat) (a : Attr) (hi : attrs[i]? = some a) (d : String)
    (hd : a.drv_path = some d) :
    ∃ res a', parse_build_stderr nix_store lines attrs = some res ∧
      res[i]? = some a' ∧
      (a.timed_out = false → d ∈ deps → touts = [] →
        a'.build_err_msg = some (String.intercalate "\n" (stripBoring lines)) ∧
        a'.timed_out = false) ∧
      (∀ ℓ, (d, ℓ) ∈ touts → d ∉ deps →
        a'.timed_out = true ∧ a'.build_err_msg = some ℓ) ∧
      (touts ≠ [] → d ∈ deps →
        a'.timed_out = true ∧
        a'.build_err_msg = some (String.intercalate "\n" (stripBoring lines))) := by
  have hcnt : ∀ d', attrs.countP (fun a => a.drv_path == some d') ≤ 1 :=
    countP_drv_le_one attrs hnodup
  have hres : parse_build_stderr nix_store lines attrs
      = some (applyDeps deps (!touts.isEmpty)
          (String.intercalate "\n" (stripBoring lines))
          (applyTimeouts touts attrs)) := by
    simp only [parse_build_stderr, hscan]
  have h1 : applyTimeouts touts attrs = attrs.map (toutsPointwise touts) :=
    applyTimeouts_eq_map touts attrs hcnt
  have hcnt' : ∀ d', (attrs.map (toutsPointwise touts)).countP
      (fun a => a.drv_path == some d') ≤ 1 := fun d' => by
    rw [countP_drv_map_eq (toutsPointwise touts) (toutsPointwise_drv touts) attrs d']
    exact hcnt d'
  have h2 : applyDeps deps (!touts.isEmpty)
        (String.intercalate "\n" (stripBoring lines)) (attrs.map (toutsPointwise touts))
      = (attrs.map (toutsPointwise touts)).map
          (depsPointwise deps (!touts.isEmpty)
            (String.intercalate "\n" (stripBoring lines))) :=
    applyDeps_eq_map (!touts.isEmpty) (String.intercalate "\n" (stripBoring lines))
      deps _ hcnt'
  have hres2 : parse_build_stderr nix_store lines attrs
      = some (attrs.map (fun x => depsPointwise deps (!touts.isEmpty)
          (String.intercalate "\n" (stripBoring lines)) (toutsPointwise touts x))) := by
    rw [hres, h1, h2, List.map_map]
    rfl
  refine ⟨_, depsPointwise deps (!touts.isEmpty)
      (String.intercalate "\n" (stripBoring lines)) (toutsPointwise touts a),
    hres2, ?_, ?_, ?_, ?_⟩
  · rw [List.getElem?_map, hi]
    rfl
  · intro ht0 hdep htouts
    subst htouts
    have hT : toutsPointwise ([] : List (String × String)) a = a := rfl
    rw [hT, depsPointwise_of_mem _ _ d deps a hd hdep]
    exact ⟨rfl, ht0⟩
  · intro ℓ hmem hdep
    have hkeys : (touts.map Prod.fst).Nodup :=
      scanLines_touts_keys_nodup nix_store (stripBoring lines) ([], [])
        (deps, touts) (by simp) hscan
    have hT := toutsPointwise_of_mem d ℓ a hd touts hkeys hmem
    have hD : depsPointwise deps (!touts.isEmpty)
        (String.intercalate "\n" (stripBoring lines)) (toutsPointwise touts a)
        = toutsPointwise touts a := by
      apply depsPointwise_no_match
      intro d' h'
      have hdrv : (toutsPointwise touts a).drv_path = some d := by
        rw [toutsPointwise_drv touts a, hd]
      rw [hdrv, beq_eq_false_iff_ne]
      intro hcontra
      exact hdep ((Option.some.inj hcontra) ▸ h')
    rw [hD, hT]
    exact ⟨rfl, rfl⟩
  · intro htne hdep
    have hAnyT : (!touts.isEmpty) = true := by
      cases touts with
      | nil => exact absurd rfl htne
      | cons _ _ => rfl
    have hdrv : (toutsPointwise touts a).drv_path = some d := by
      rw [toutsPointwise_drv touts a, hd]
    rw [depsPointwise_of_mem _ _ d deps (toutsPointwise touts a) hdrv hdep]
    refine ⟨?_, rfl⟩
    show (if (!touts.isEmpty) then true else (toutsPointwise touts a).timed_out) = true
    rw [hAnyT, if_pos rfl]

set_option maxRecDepth 400000 in
/-- C2 witness: stderr with a timeout line for `x.drv` and a
dependency-failure line for `y.drv`, applied to the record of `y.drv`
(clause three then yields `timed_out = true` with the full stderr as its
message). -/
theorem parse_build_stderr_spec_witness :
    ∃ res a', parse_build_stderr "/nix/store" [lineTimeoutFx, lineDepYFx]
        [attrFx, attrYFx] = some res ∧
      res[1]? = some a' ∧
      (attrYFx.timed_out = false → "/nix/store/y.drv" ∈ ["/nix/store/y.drv"] →
        [("/nix/store/x.drv", lineTimeoutFx)] = ([] : List (String × String)) →
        a'.build_err_msg = some (String.intercalate "\n"
          (stripBoring [lineTimeoutFx, lineDepYFx])) ∧
        a'.timed_out = false) ∧
      (∀ ℓ, ("/nix/store/y.drv", ℓ) ∈ [("/nix/store/x.drv", lineTimeoutFx)] →
        "/nix/store/y.drv" ∉ ["/nix/store/y.drv"] →
        a'.timed_out = true ∧ a'.build_err_msg = some ℓ) ∧
      ([("/nix/store/x.drv", lineTimeoutFx)] ≠ ([] : List (String × String)) →
        "/nix/store/y.drv" ∈ ["/nix/store/y.drv"] →
        a'.timed_out = true ∧
        a'.build_err_msg = some (String.intercalate "\n"
          (stripBoring [lineTimeoutFx, lineDepYFx]))) :=
  parse_build_stderr_spec "/nix/store" [lineTimeoutFx, lineDepYFx] [attrFx, attrYFx]
    ["/nix/store/y.drv"] [("/nix/store/x.drv", lineTimeoutFx)]
    (by decide) (by decide) 1 attrYFx (by decide) "/nix/store/y.drv" (by decide)

set_option maxRecDepth 400000 in
/-- C2 counterexample: a record whose build-identifier appears BOTH in a
"timed out after" line and in a "dependencies couldn't be built" line does
NOT end with the timeout line as its message (as the claim demands for
every record named in a timeout line): the dependency-failure loop runs
second and overwrites the message with the full stripped stderr. -/
theorem parse_build_stderr_counterexample :
    parse_build_stderr "/nix/store" [lineTimeoutFx, lineDepXFx] [attrFx]
      = some [{ attrFx with
                  build_err_msg := some (lineTimeoutFx ++ "\n" ++ lineDepXFx)
                  timed_out := true }] ∧
    lineTimeoutFx ++ "\n" ++ lineDepXFx ≠ lineTimeoutFx := by
  constructor <;> decide

end NixpkgsReview
